import Mathlib

/-!
Shallow embedding of the teleoperation control core of
`src/Jetson_ai_drive/basic_drive_cont.py` (class `SimpleRoverController`):
the key-state registry, the target resolver, the velocity smoother and the
shutdown sequencer.  Speeds are modelled as exact rationals; the Python
floats of the configuration are the literals written in the source.
-/

namespace RoverCtrl

/-- The movement symbols tracked by the registry: `'w'`, `'a'`, `'s'`,
`'d'` and the space bar (emergency stop). -/
inductive Key where
  | w
  | a
  | s
  | d
  | space
deriving DecidableEq, Repr

/-- The velocity state of `SimpleRoverController`: live speeds
(`linear_speed`, `angular_speed`) and target speeds
(`target_linear`, `target_angular`). -/
structure VState where
  linear_speed : ℚ
  angular_speed : ℚ
  target_linear : ℚ
  target_angular : ℚ
deriving DecidableEq, Repr

/-- `self.MAX_SPEED = 0.5` -/
def MAX_SPEED : ℚ := 1/2

/-- `self.MIN_TURN_SPEED = 0.5` -/
def MIN_TURN_SPEED : ℚ := 1/2

/-- `self.MAX_STEER = 0.2` -/
def MAX_STEER : ℚ := 1/5

/-- `self.LINEAR_ACCEL = 0.02` -/
def LINEAR_ACCEL : ℚ := 1/50

/-- `self.ANGULAR_ACCEL = 0.05` -/
def ANGULAR_ACCEL : ℚ := 1/20

/-- `self.KEY_TIMEOUT = 0.15` -/
def KEY_TIMEOUT : ℚ := 3/20

/-- Python's built-in `abs` on a rational. -/
def pyabs (q : ℚ) : ℚ := if q < 0 then -q else q

/-- `get_active_keys`: from the registry (`self._key_states`, modelled as an
association list of key/last-seen-timestamp pairs) and the current time,
return the set of keys seen within `KEY_TIMEOUT`, together with the registry
left behind after the expired entries are deleted. -/
def get_active_keys (key_states : List (Key × ℚ)) (current_time : ℚ) :
    Finset Key × List (Key × ℚ) :=
  let live := key_states.filter fun kv => decide (current_time - kv.2 < KEY_TIMEOUT)
  ((live.map Prod.fst).toFinset, live)

/-- The `if 'w' in active_keys: ... elif 's' in active_keys: ...` chain of
`update_targets`, before the turn-boost rule is applied. -/
def base_linear (active_keys : Finset Key) : ℚ :=
  if Key.w ∈ active_keys then MAX_SPEED
  else if Key.s ∈ active_keys then -MAX_SPEED
  else 0

/-- `update_targets`: resolve the active-key set into target speeds.
Space zeroes the targets and the live speeds and returns at once; otherwise
`w`/`s` set the longitudinal target (forward first), `a`/`d` set the turn
target (`a` first), and a turn forces `target_linear` to the signed
`MIN_TURN_SPEED`. -/
def update_targets (active_keys : Finset Key) (st : VState) : VState :=
  if Key.space ∈ active_keys then
    { linear_speed := 0, angular_speed := 0, target_linear := 0, target_angular := 0 }
  else
    let moving_forward := Key.w ∈ active_keys
    let moving_backward := Key.w ∉ active_keys ∧ Key.s ∈ active_keys
    let turning := Key.a ∈ active_keys ∨ Key.d ∈ active_keys
    let ta := if Key.a ∈ active_keys then -MAX_STEER
      else if Key.d ∈ active_keys then MAX_STEER
      else 0
    let tl := if turning then
        (if ¬ moving_forward ∧ ¬ moving_backward then MIN_TURN_SPEED
         else if moving_forward then MIN_TURN_SPEED
         else -MIN_TURN_SPEED)
      else base_linear active_keys
    { st with target_linear := tl, target_angular := ta }

/-- The `if abs(target - current) < accel: ... elif ... elif ...` ramp
pattern used by `smooth_speed_update` for the angular speed and for the
linear speed outside the instant-boost cases. -/
def smooth_toward (current target accel : ℚ) : ℚ :=
  if pyabs (target - current) < accel then target
  else if current < target then current + accel
  else if current > target then current - accel
  else current

/-- `smooth_speed_update`: advance the live speeds toward the targets.
While turning (`abs(target_angular) > 0.01`) the linear speed jumps
instantly (to the target when `abs(target_linear) >= MIN_TURN_SPEED`, else
to the signed `MIN_TURN_SPEED` when below it); otherwise it ramps by at most
`LINEAR_ACCEL`.  The angular speed always ramps by at most `ANGULAR_ACCEL`. -/
def smooth_speed_update (st : VState) : VState :=
  let is_turning := 1/100 < pyabs st.target_angular
  let new_linear :=
    if is_turning then
      if MIN_TURN_SPEED ≤ pyabs st.target_linear then st.target_linear
      else if 0 < st.target_linear ∧ st.linear_speed < MIN_TURN_SPEED then MIN_TURN_SPEED
      else if st.target_linear < 0 ∧ -MIN_TURN_SPEED < st.linear_speed then -MIN_TURN_SPEED
      else smooth_toward st.linear_speed st.target_linear LINEAR_ACCEL
    else smooth_toward st.linear_speed st.target_linear LINEAR_ACCEL
  let new_angular := smooth_toward st.angular_speed st.target_angular ANGULAR_ACCEL
  { st with linear_speed := new_linear, angular_speed := new_angular }

/-- One control-loop tick: resolve targets from the active keys, then run
the smoother (the dispatcher then sends the resulting live speeds). -/
def tick (active_keys : Finset Key) (st : VState) : VState :=
  smooth_speed_update (update_targets active_keys st)

/-- One iteration of the shutdown loop's body: zero both targets, then run
the smoother. -/
def shutdown_step (st : VState) : VState :=
  smooth_speed_update { st with target_linear := 0, target_angular := 0 }

/-- The velocity pairs dispatched by the shutdown loop
(`while abs(linear) > 0.01 or abs(angular) > 0.01`), with explicit fuel.
Each iteration zeroes the targets, smooths, and dispatches the new live
pair. -/
def shutdown_dispatches : ℕ → VState → List (ℚ × ℚ)
  | 0, _ => []
  | fuel + 1, st =>
    if 1/100 < pyabs st.linear_speed ∨ 1/100 < pyabs st.angular_speed then
      let st' := shutdown_step st
      (st'.linear_speed, st'.angular_speed) :: shutdown_dispatches fuel st'
    else []

/-- The full shutdown sequence of dispatched pairs: the ramp-down loop
followed by the single final `base_velocity_ctrl(0, 0)`. -/
def shutdown_sequence (fuel : ℕ) (st : VState) : List (ℚ × ℚ) :=
  shutdown_dispatches fuel st ++ [(0, 0)]

/-- The initial state: at rest with zero targets. -/
def initState : VState :=
  { linear_speed := 0, angular_speed := 0, target_linear := 0, target_angular := 0 }

/-- States reachable from the initial rest state by resolver and smoother
updates. -/
inductive Reachable : VState → Prop where
  | init : Reachable initState
  | targets : ∀ {st : VState} (ks : Finset Key), Reachable st →
      Reachable (update_targets ks st)
  | smooth : ∀ {st : VState}, Reachable st → Reachable (smooth_speed_update st)

theorem pyabs_eq_abs (q : ℚ) : pyabs q = |q| := by
  unfold pyabs
  split_ifs with h
  · exact (abs_of_neg h).symm
  · exact (abs_of_nonneg (not_lt.mp h)).symm

theorem smooth_toward_self (c a : ℚ) (ha : 0 < a) : smooth_toward c c a = c := by
  unfold smooth_toward
  rw [if_pos]
  rw [pyabs_eq_abs, sub_self, abs_zero]
  exact ha

theorem smooth_toward_abs_le {c t a B : ℚ} (ha : 0 ≤ a) (hc : |c| ≤ B) (ht : |t| ≤ B) :
    |smooth_toward c t a| ≤ B := by
  unfold smooth_toward
  rw [pyabs_eq_abs]
  rw [abs_le] at hc ht
  split_ifs with h1 h2 h3
  · exact abs_le.mpr ht
  · have hat : a ≤ t - c := by
      have := not_lt.mp h1
      rwa [abs_of_pos (by linarith)] at this
    exact abs_le.mpr ⟨by linarith [hc.1], by linarith [ht.2]⟩
  · have hat : a ≤ c - t := by
      have := not_lt.mp h1
      rwa [abs_of_neg (by linarith), neg_sub] at this
    exact abs_le.mpr ⟨by linarith [ht.1], by linarith [hc.2]⟩
  · exact abs_le.mpr hc

theorem smooth_toward_step_le {c t a : ℚ} (ha : 0 ≤ a) :
    |smooth_toward c t a - c| ≤ a := by
  unfold smooth_toward
  rw [pyabs_eq_abs]
  split_ifs with h1 h2 h3
  · exact le_of_lt h1
  · rw [add_sub_cancel_left, abs_of_nonneg ha]
  · rw [sub_sub_cancel_left, abs_neg, abs_of_nonneg ha]
  · rw [sub_self, abs_zero]
    exact ha

/-- C2: if the stop key (space) is active in a tick, resolving targets sets
both targets to zero and also forces the live linear and angular speeds to
zero in that same tick, regardless of the prior velocity state; the smoother
does no ramping (running it afterwards leaves the speeds at zero). -/
theorem stop_key_forces_zero_now (ks : Finset Key) (st : VState)
    (hstop : Key.space ∈ ks) :
    (update_targets ks st).target_linear = 0 ∧
    (update_targets ks st).target_angular = 0 ∧
    (update_targets ks st).linear_speed = 0 ∧
    (update_targets ks st).angular_speed = 0 ∧
    (tick ks st).linear_speed = 0 ∧
    (tick ks st).angular_speed = 0 := by
  have h1 : update_targets ks st = initState := by
    simp [update_targets, hstop, initState]
  rw [tick, h1]
  have h2 : smooth_speed_update initState = initState := by
    norm_num [smooth_speed_update, smooth_toward, pyabs, initState,
      LINEAR_ACCEL, ANGULAR_ACCEL]
  rw [h2]
  exact ⟨rfl, rfl, rfl, rfl, rfl, rfl⟩

/-- C2 witness: a concrete tick with the space key active and a nonzero
prior velocity is stopped instantly. -/
theorem stop_key_forces_zero_now_witness :
    (update_targets {Key.space, Key.w} ⟨1/2, 1/5, 1/2, 1/5⟩).target_linear = 0 ∧
    (update_targets {Key.space, Key.w} ⟨1/2, 1/5, 1/2, 1/5⟩).target_angular = 0 ∧
    (update_targets {Key.space, Key.w} ⟨1/2, 1/5, 1/2, 1/5⟩).linear_speed = 0 ∧
    (update_targets {Key.space, Key.w} ⟨1/2, 1/5, 1/2, 1/5⟩).angular_speed = 0 ∧
    (tick {Key.space, Key.w} ⟨1/2, 1/5, 1/2, 1/5⟩).linear_speed = 0 ∧
    (tick {Key.space, Key.w} ⟨1/2, 1/5, 1/2, 1/5⟩).angular_speed = 0 :=
  stop_key_forces_zero_now {Key.space, Key.w} ⟨1/2, 1/5, 1/2, 1/5⟩ (by decide)

/-- C6: reading the active keys returns exactly the keys whose last-seen
timestamp satisfies `now - lastSeen < KEY_TIMEOUT`, and the registry left
behind keeps exactly the entries satisfying that bound (every expired entry
is removed); in particular a key whose every entry is at least
`KEY_TIMEOUT` old is absent from the returned set. -/
theorem get_active_keys_spec (key_states : List (Key × ℚ)) (now : ℚ) :
    (∀ k : Key, k ∈ (get_active_keys key_states now).1 ↔
      ∃ ts : ℚ, (k, ts) ∈ key_states ∧ now - ts < KEY_TIMEOUT) ∧
    (∀ k : Key, ∀ ts : ℚ, (k, ts) ∈ (get_active_keys key_states now).2 ↔
      ((k, ts) ∈ key_states ∧ now - ts < KEY_TIMEOUT)) := by
  constructor
  · intro k
    simp only [get_active_keys, List.mem_toFinset, List.mem_map, List.mem_filter,
      decide_eq_true_eq]
    constructor
    · rintro ⟨⟨k', ts⟩, ⟨hmem, hlt⟩, hfst⟩
      exact ⟨ts, by simpa [← hfst] using hmem, hlt⟩
    · rintro ⟨ts, hmem, hlt⟩
      exact ⟨(k, ts), ⟨hmem, hlt⟩, rfl⟩
  · intro k ts
    simp [get_active_keys, List.mem_filter]

/-- C8: whenever a turn key (`a` or `d`) is active and the stop key is not,
the resolved `target_linear` has magnitude exactly `MIN_TURN_SPEED` (so at
least `MIN_TURN_SPEED`): it is `+MIN_TURN_SPEED` when `w` is active or when
neither `w` nor `s` is active, and `-MIN_TURN_SPEED` when `s` is active
without `w`; a turn request with smaller magnitude is never produced. -/
theorem turn_boost_min_linear (ks : Finset Key) (st : VState)
    (hturn : Key.a ∈ ks ∨ Key.d ∈ ks) (hstop : Key.space ∉ ks) :
    MIN_TURN_SPEED ≤ |(update_targets ks st).target_linear| ∧
    ((Key.w ∈ ks ∨ (Key.w ∉ ks ∧ Key.s ∉ ks)) →
      (update_targets ks st).target_linear = MIN_TURN_SPEED) ∧
    ((Key.w ∉ ks ∧ Key.s ∈ ks) →
      (update_targets ks st).target_linear = -MIN_TURN_SPEED) := by
  have htl : (update_targets ks st).target_linear =
      if Key.w ∉ ks ∧ Key.s ∈ ks then -MIN_TURN_SPEED else MIN_TURN_SPEED := by
    simp only [update_targets, if_neg hstop]
    by_cases hw : Key.w ∈ ks <;> by_cases hs : Key.s ∈ ks <;>
      simp [hw, hs, hturn]
  rw [htl]
  refine ⟨?_, ?_, ?_⟩
  · split_ifs
    · rw [abs_neg, abs_of_pos (by norm_num [MIN_TURN_SPEED])]
    · rw [abs_of_pos (by norm_num [MIN_TURN_SPEED])]
  · rintro (hw | ⟨hw, hs⟩)
    · simp [hw]
    · simp [hs]
  · intro h
    rw [if_pos h]

/-- C8 witness: turning alone (`a` only) produces the minimum-magnitude
linear target. -/
theorem turn_boost_min_linear_witness :
    MIN_TURN_SPEED ≤ |(update_targets {Key.a} initState).target_linear| ∧
    ((Key.w ∈ ({Key.a} : Finset Key) ∨
        (Key.w ∉ ({Key.a} : Finset Key) ∧ Key.s ∉ ({Key.a} : Finset Key))) →
      (update_targets {Key.a} initState).target_linear = MIN_TURN_SPEED) ∧
    ((Key.w ∉ ({Key.a} : Finset Key) ∧ Key.s ∈ ({Key.a} : Finset Key)) →
      (update_targets {Key.a} initState).target_linear = -MIN_TURN_SPEED) :=
  turn_boost_min_linear {Key.a} initState (by decide) (by decide)

/-- C9: in `update_targets` the first-checked key of each pair wins: with
both `w` and `s` active the result is the same as if `s` were not pressed
(and the pre-boost longitudinal target is `+MAX_SPEED`), and with both `a`
and `d` active the result is the same as if `d` were not pressed (the turn
target being `-MAX_STEER` when the stop key is absent). -/
theorem first_checked_key_wins (ks : Finset Key) (st : VState) :
    (Key.w ∈ ks → Key.s ∈ ks →
      update_targets ks st = update_targets (ks.erase Key.s) st ∧
      base_linear ks = MAX_SPEED) ∧
    (Key.a ∈ ks → Key.d ∈ ks →
      update_targets ks st = update_targets (ks.erase Key.d) st ∧
      (Key.space ∉ ks → (update_targets ks st).target_angular = -MAX_STEER)) := by
  constructor
  · intro hw hs
    constructor
    · by_cases hsp : Key.space ∈ ks <;> by_cases ha : Key.a ∈ ks <;>
        by_cases hd : Key.d ∈ ks <;>
        simp +decide [update_targets, base_linear, Finset.mem_erase, hsp, ha, hd, hw, hs]
    · simp [base_linear, hw]
  · intro ha hd
    constructor
    · by_cases hsp : Key.space ∈ ks <;> by_cases hw : Key.w ∈ ks <;>
        by_cases hs : Key.s ∈ ks <;>
        simp +decide [update_targets, base_linear, Finset.mem_erase, hsp, hw, hs, ha, hd]
    · intro hsp
      simp [update_targets, base_linear, hsp, ha]

/-- C9 witness: with all four movement keys held, `s` and `d` are ignored
and the resolver behaves as if only `w` and `a` were pressed. -/
theorem first_checked_key_wins_witness :
    update_targets {Key.w, Key.s, Key.a, Key.d} initState =
      update_targets (({Key.w, Key.s, Key.a, Key.d} : Finset Key).erase Key.s) initState ∧
    base_linear {Key.w, Key.s, Key.a, Key.d} = MAX_SPEED :=
  (first_checked_key_wins {Key.w, Key.s, Key.a, Key.d} initState).1 (by decide) (by decide)

/-- C10: the smoother is the identity at its fixed point: if the live
speeds already equal the targets and either no turn is in effect
(`|target_angular| ≤ 0.01`) or `|target_linear| ≥ MIN_TURN_SPEED`, a
smoother step leaves the state unchanged, and hence so does every number of
further steps. -/
theorem smoother_fixed_point (st : VState)
    (hlin : st.linear_speed = st.target_linear)
    (hang : st.angular_speed = st.target_angular)
    (hcase : |st.target_angular| ≤ 1/100 ∨ MIN_TURN_SPEED ≤ |st.target_linear|) :
    smooth_speed_update st = st ∧ ∀ n : ℕ, smooth_speed_update^[n] st = st := by
  have hfix : smooth_speed_update st = st := by
    obtain ⟨l, a, tl, ta⟩ := st
    simp only at hlin hang hcase
    subst hlin
    subst hang
    have hY : smooth_toward a a ANGULAR_ACCEL = a :=
      smooth_toward_self a ANGULAR_ACCEL (by norm_num [ANGULAR_ACCEL])
    have hX : smooth_toward l l LINEAR_ACCEL = l :=
      smooth_toward_self l LINEAR_ACCEL (by norm_num [LINEAR_ACCEL])
    simp only [smooth_speed_update, pyabs_eq_abs]
    rcases hcase with h | h
    · rw [if_neg (not_lt.mpr h), hX, hY]
    · by_cases hta : (1:ℚ)/100 < |a|
      · rw [if_pos hta, if_pos h, hY]
      · rw [if_neg hta, hX, hY]
  exact ⟨hfix, fun n => Function.iterate_fixed hfix n⟩

/-- C10 witness: at rest with zero targets the smoother dispatches exactly
(0, 0) on this and every subsequent tick. -/
theorem smoother_fixed_point_witness :
    smooth_speed_update initState = initState ∧
    smooth_speed_update^[7] initState = initState :=
  ⟨(smoother_fixed_point initState rfl rfl (Or.inl (by norm_num [initState]))).1,
   (smoother_fixed_point initState rfl rfl (Or.inl (by norm_num [initState]))).2 7⟩

/-- The inductive invariant: live speeds and targets are bounded by
`MAX_SPEED` / `MAX_STEER`. -/
def Inv (st : VState) : Prop :=
  |st.linear_speed| ≤ MAX_SPEED ∧ |st.angular_speed| ≤ MAX_STEER ∧
  |st.target_linear| ≤ MAX_SPEED ∧ |st.target_angular| ≤ MAX_STEER

theorem initState_inv : Inv initState := by
  norm_num [Inv, initState, MAX_SPEED, MAX_STEER]

theorem update_targets_inv (ks : Finset Key) (st : VState) (h : Inv st) :
    Inv (update_targets ks st) := by
  obtain ⟨h1, h2, h3, h4⟩ := h
  by_cases hsp : Key.space ∈ ks
  · refine ⟨?_, ?_, ?_, ?_⟩ <;> simp [update_targets, if_pos hsp] <;>
      norm_num [MAX_SPEED, MAX_STEER]
  · refine ⟨?_, ?_, ?_, ?_⟩
    · simpa [update_targets, if_neg hsp] using h1
    · simpa [update_targets, if_neg hsp] using h2
    · simp only [update_targets, if_neg hsp]
      split_ifs
      · rw [abs_le]; constructor <;> norm_num [MAX_SPEED, MIN_TURN_SPEED]
      · rw [abs_le]; constructor <;> norm_num [MAX_SPEED, MIN_TURN_SPEED]
      · rw [abs_le]; constructor <;> norm_num [MAX_SPEED, MIN_TURN_SPEED]
      · unfold base_linear
        split_ifs <;> (rw [abs_le]; constructor <;> norm_num [MAX_SPEED])
    · simp only [update_targets, if_neg hsp]
      split_ifs <;> (rw [abs_le]; constructor <;> norm_num [MAX_STEER])

theorem smooth_speed_update_inv (st : VState) (h : Inv st) :
    Inv (smooth_speed_update st) := by
  obtain ⟨h1, h2, h3, h4⟩ := h
  refine ⟨?_, ?_, ?_, ?_⟩
  · simp only [smooth_speed_update]
    split_ifs
    · exact h3
    · rw [abs_le]; constructor <;> norm_num [MAX_SPEED, MIN_TURN_SPEED]
    · rw [abs_le]; constructor <;> norm_num [MAX_SPEED, MIN_TURN_SPEED]
    · exact smooth_toward_abs_le (by norm_num [LINEAR_ACCEL]) h1 h3
    · exact smooth_toward_abs_le (by norm_num [LINEAR_ACCEL]) h1 h3
  · simp only [smooth_speed_update]
    exact smooth_toward_abs_le (by norm_num [ANGULAR_ACCEL]) h2 h4
  · simpa [smooth_speed_update] using h3
  · simpa [smooth_speed_update] using h4

theorem reachable_inv {st : VState} (h : Reachable st) : Inv st := by
  induction h with
  | init => exact initState_inv
  | targets ks _ ih => exact update_targets_inv ks _ ih
  | smooth _ ih => exact smooth_speed_update_inv _ ih

/-- C1: every state reachable from rest by resolver (`update_targets`) and
smoother (`smooth_speed_update`) updates satisfies
`|linear_speed| ≤ MAX_SPEED` and `|angular_speed| ≤ MAX_STEER`, so every
velocity pair handed to the motor sink obeys these bounds. -/
theorem reachable_speed_bounds (st : VState) (h : Reachable st) :
    |st.linear_speed| ≤ MAX_SPEED ∧ |st.angular_speed| ≤ MAX_STEER :=
  ⟨(reachable_inv h).1, (reachable_inv h).2.1⟩

/-- C1 witness: the state after one resolver update and one smoother step
from rest with the left-turn key held is within the bounds. -/
theorem reachable_speed_bounds_witness :
    |(smooth_speed_update (update_targets {Key.a} initState)).linear_speed| ≤ MAX_SPEED ∧
    |(smooth_speed_update (update_targets {Key.a} initState)).angular_speed| ≤ MAX_STEER :=
  reachable_speed_bounds _ (Reachable.smooth (Reachable.targets {Key.a} Reachable.init))

theorem update_targets_a (st : VState) :
    update_targets {Key.a} st =
      { st with target_linear := MIN_TURN_SPEED, target_angular := -MAX_STEER } := by
  simp +decide [update_targets, base_linear]

theorem update_targets_w (st : VState) :
    update_targets {Key.w} st =
      { st with target_linear := MAX_SPEED, target_angular := 0 } := by
  simp +decide [update_targets, base_linear]

theorem tick_w_eq (st : VState) :
    tick {Key.w} st =
      ⟨smooth_toward st.linear_speed MAX_SPEED LINEAR_ACCEL,
        smooth_toward st.angular_speed 0 ANGULAR_ACCEL, MAX_SPEED, 0⟩ := by
  rw [tick, update_targets_w]
  norm_num [smooth_speed_update, pyabs]

theorem tick_a_init :
    tick {Key.a} initState = ⟨1/2, -(1/20), 1/2, -(1/5)⟩ := by
  rw [tick, update_targets_a]
  norm_num [smooth_speed_update, smooth_toward, pyabs, initState,
    MAX_SPEED, MIN_TURN_SPEED, MAX_STEER, LINEAR_ACCEL, ANGULAR_ACCEL]

theorem tick_a_s1 :
    tick {Key.a} ⟨1/2, -(1/20), 1/2, -(1/5)⟩ = ⟨1/2, -(1/10), 1/2, -(1/5)⟩ := by
  rw [tick, update_targets_a]
  norm_num [smooth_speed_update, smooth_toward, pyabs,
    MAX_SPEED, MIN_TURN_SPEED, MAX_STEER, LINEAR_ACCEL, ANGULAR_ACCEL]

theorem tick_a_s2 :
    tick {Key.a} ⟨1/2, -(1/10), 1/2, -(1/5)⟩ = ⟨1/2, -(3/20), 1/2, -(1/5)⟩ := by
  rw [tick, update_targets_a]
  norm_num [smooth_speed_update, smooth_toward, pyabs,
    MAX_SPEED, MIN_TURN_SPEED, MAX_STEER, LINEAR_ACCEL, ANGULAR_ACCEL]

theorem tick_a_s3 :
    tick {Key.a} ⟨1/2, -(3/20), 1/2, -(1/5)⟩ = ⟨1/2, -(1/5), 1/2, -(1/5)⟩ := by
  rw [tick, update_targets_a]
  norm_num [smooth_speed_update, smooth_toward, pyabs,
    MAX_SPEED, MIN_TURN_SPEED, MAX_STEER, LINEAR_ACCEL, ANGULAR_ACCEL]

/-- C3 counterexample: starting from rest with only the left key active,
one tick makes the angular speed `-ANGULAR_ACCEL`, not `-MAX_STEER`; the
claimed post-tick velocity (`+MIN_TURN_SPEED`, `-MAX_STEER`) is wrong in
its angular component. -/
theorem turn_from_rest_counterexample :
    (tick {Key.a} initState).angular_speed = -ANGULAR_ACCEL ∧
    ¬((tick {Key.a} initState).linear_speed = MIN_TURN_SPEED ∧
      (tick {Key.a} initState).angular_speed = -MAX_STEER) := by
  rw [tick_a_init]
  norm_num [ANGULAR_ACCEL, MIN_TURN_SPEED, MAX_STEER]

/-- C3 amended: from rest with only the left key active, a single tick
instantly makes the linear speed `+MIN_TURN_SPEED`, but the angular speed
ramps: it is `-ANGULAR_ACCEL` after one tick and reaches `-MAX_STEER` only
after `⌈MAX_STEER / ANGULAR_ACCEL⌉ = 4` ticks, not earlier. -/
theorem turn_from_rest_amended :
    (tick {Key.a} initState).linear_speed = MIN_TURN_SPEED ∧
    (tick {Key.a} initState).angular_speed = -ANGULAR_ACCEL ∧
    ((tick {Key.a})^[4] initState).angular_speed = -MAX_STEER ∧
    ((tick {Key.a})^[3] initState).angular_speed ≠ -MAX_STEER ∧
    ((tick {Key.a})^[4] initState).linear_speed = MIN_TURN_SPEED ∧
    ⌈MAX_STEER / ANGULAR_ACCEL⌉ = 4 := by
  have h3 : (tick {Key.a})^[3] initState = ⟨1/2, -(3/20), 1/2, -(1/5)⟩ := by
    rw [show (tick {Key.a})^[3] initState =
        tick {Key.a} (tick {Key.a} (tick {Key.a} initState)) from rfl,
      tick_a_init, tick_a_s1, tick_a_s2]
  have h4 : (tick {Key.a})^[4] initState = ⟨1/2, -(1/5), 1/2, -(1/5)⟩ := by
    rw [show (tick {Key.a})^[4] initState =
        tick {Key.a} (tick {Key.a} (tick {Key.a} (tick {Key.a} initState))) from rfl,
      tick_a_init, tick_a_s1, tick_a_s2, tick_a_s3]
  rw [tick_a_init, h3, h4]
  refine ⟨by norm_num [MIN_TURN_SPEED], by norm_num [ANGULAR_ACCEL],
    by norm_num [MAX_STEER], by norm_num [MAX_STEER], by norm_num [MIN_TURN_SPEED], ?_⟩
  rw [show MAX_STEER / ANGULAR_ACCEL = ((4 : ℤ) : ℚ) by
    norm_num [MAX_STEER, ANGULAR_ACCEL]]
  exact Int.ceil_intCast 4

theorem smooth_toward_min_step (n : ℕ) :
    smooth_toward (min ((n : ℚ) * LINEAR_ACCEL) MAX_SPEED) MAX_SPEED LINEAR_ACCEL =
      min (((n : ℚ) + 1) * LINEAR_ACCEL) MAX_SPEED := by
  simp only [LINEAR_ACCEL, MAX_SPEED]
  rcases le_or_lt (n + 1) 25 with h | h
  · have hn : (n : ℚ) ≤ 24 := by
      have hn' : n ≤ 24 := by omega
      exact_mod_cast hn'
    have e1 : min ((n : ℚ) * (1/50)) (1/2) = (n : ℚ) * (1/50) :=
      min_eq_left (by linarith)
    have e2 : min (((n : ℚ) + 1) * (1/50)) (1/2) = ((n : ℚ) + 1) * (1/50) :=
      min_eq_left (by linarith)
    rw [e1, e2]
    unfold smooth_toward
    rw [pyabs_eq_abs]
    have hgap : |(1 : ℚ)/2 - (n : ℚ) * (1/50)| = 1/2 - (n : ℚ) * (1/50) :=
      abs_of_nonneg (by linarith)
    rw [if_neg (by rw [hgap]; intro hcon; linarith), if_pos (by linarith)]
    ring
  · have hn : (25 : ℚ) ≤ (n : ℚ) := by
      have hn' : 25 ≤ n := by omega
      exact_mod_cast hn'
    have e1 : min ((n : ℚ) * (1/50)) (1/2) = 1/2 := min_eq_right (by linarith)
    have e2 : min (((n : ℚ) + 1) * (1/50)) (1/2) = 1/2 := min_eq_right (by linarith)
    rw [e1, e2]
    exact smooth_toward_self _ _ (by norm_num)

theorem tick_w_formula (n : ℕ) :
    (tick {Key.w})^[n + 1] initState =
      ⟨min (((n : ℚ) + 1) * LINEAR_ACCEL) MAX_SPEED, 0, MAX_SPEED, 0⟩ := by
  induction n with
  | zero =>
    rw [Function.iterate_one, tick_w_eq]
    norm_num [initState, smooth_toward, pyabs, LINEAR_ACCEL, ANGULAR_ACCEL,
      MAX_SPEED, min_def]
  | succ n ih =>
    rw [Function.iterate_succ_apply', ih, tick_w_eq]
    have h1 := smooth_toward_min_step (n + 1)
    push_cast at h1 ⊢
    rw [h1, smooth_toward_self 0 ANGULAR_ACCEL (by norm_num [ANGULAR_ACCEL])]

/-- C4: from rest with only the forward key held, the linear speed is
monotonically non-decreasing, never exceeds `MAX_SPEED`, and first equals
`MAX_SPEED` after exactly `⌈MAX_SPEED / LINEAR_ACCEL⌉ = 25` ticks. -/
theorem forward_accel_profile :
    (∀ n : ℕ, ((tick {Key.w})^[n] initState).linear_speed ≤
      ((tick {Key.w})^[n + 1] initState).linear_speed) ∧
    (∀ n : ℕ, ((tick {Key.w})^[n] initState).linear_speed ≤ MAX_SPEED) ∧
    ((tick {Key.w})^[25] initState).linear_speed = MAX_SPEED ∧
    ((tick {Key.w})^[24] initState).linear_speed ≠ MAX_SPEED ∧
    ⌈MAX_SPEED / LINEAR_ACCEL⌉ = 25 := by
  have hlin : ∀ n : ℕ, ((tick {Key.w})^[n] initState).linear_speed =
      min ((n : ℚ) * LINEAR_ACCEL) MAX_SPEED := by
    intro n
    cases n with
    | zero =>
      simp [initState, MAX_SPEED, min_def]
    | succ n =>
      rw [tick_w_formula n]
      push_cast
      rfl
  refine ⟨?_, ?_, ?_, ?_, ?_⟩
  · intro n
    rw [hlin n, hlin (n + 1)]
    refine min_le_min ?_ le_rfl
    push_cast
    have hL : (0 : ℚ) ≤ LINEAR_ACCEL := by norm_num [LINEAR_ACCEL]
    nlinarith
  · intro n
    rw [hlin n]
    exact min_le_right _ _
  · rw [hlin 25]
    norm_num [LINEAR_ACCEL, MAX_SPEED, min_def]
  · rw [hlin 24]
    norm_num [LINEAR_ACCEL, MAX_SPEED, min_def]
  · rw [show MAX_SPEED / LINEAR_ACCEL = ((25 : ℤ) : ℚ) by
      norm_num [MAX_SPEED, LINEAR_ACCEL]]
    exact Int.ceil_intCast 25

/-- C7 counterexample: with a turn in effect and the linear speed already
strictly beyond `MIN_TURN_SPEED` in the direction of the (positive) target,
the smoother does not ramp: because `|target_linear| ≥ MIN_TURN_SPEED`, the
linear speed jumps straight to the target, changing by `1/20`, which
exceeds `LINEAR_ACCEL = 1/50`. -/
theorem ramp_while_turning_counterexample :
    1/100 < |(VState.mk (11/20) 0 (3/5) (1/5)).target_angular| ∧
    MIN_TURN_SPEED < (VState.mk (11/20) 0 (3/5) (1/5)).linear_speed ∧
    0 < (VState.mk (11/20) 0 (3/5) (1/5)).target_linear ∧
    (smooth_speed_update (VState.mk (11/20) 0 (3/5) (1/5))).linear_speed = 3/5 ∧
    LINEAR_ACCEL <
      |(smooth_speed_update (VState.mk (11/20) 0 (3/5) (1/5))).linear_speed -
        (VState.mk (11/20) 0 (3/5) (1/5)).linear_speed| := by
  have hs : (smooth_speed_update (VState.mk (11/20) 0 (3/5) (1/5))).linear_speed = 3/5 := by
    norm_num [smooth_speed_update, pyabs, MIN_TURN_SPEED]
  refine ⟨?_, by norm_num [MIN_TURN_SPEED], by norm_num, hs, ?_⟩
  · rw [← pyabs_eq_abs]
    norm_num [pyabs]
  · rw [hs, ← pyabs_eq_abs]
    norm_num [pyabs, LINEAR_ACCEL]

/-- C7 amended: during a turning smoother step (`|target_angular| > 0.01`)
with `|target_linear| < MIN_TURN_SPEED`, if the current linear speed is at
or beyond `MIN_TURN_SPEED` in the direction of the nonzero target, the
linear speed advances only by ordinary ramping, changing by at most
`LINEAR_ACCEL`; when `|target_linear| ≥ MIN_TURN_SPEED` the smoother
instead jumps the linear speed instantly to the target. -/
theorem ramp_while_turning_amended (st : VState)
    (hturn : 1/100 < |st.target_angular|)
    (hsmall : |st.target_linear| < MIN_TURN_SPEED)
    (hbeyond : (0 < st.target_linear ∧ MIN_TURN_SPEED ≤ st.linear_speed) ∨
      (st.target_linear < 0 ∧ st.linear_speed ≤ -MIN_TURN_SPEED)) :
    (smooth_speed_update st).linear_speed =
      smooth_toward st.linear_speed st.target_linear LINEAR_ACCEL ∧
    |(smooth_speed_update st).linear_speed - st.linear_speed| ≤ LINEAR_ACCEL := by
  have hlin : (smooth_speed_update st).linear_speed =
      smooth_toward st.linear_speed st.target_linear LINEAR_ACCEL := by
    have hn2 : ¬(0 < st.target_linear ∧ st.linear_speed < MIN_TURN_SPEED) := by
      rintro ⟨htl, hlt⟩
      rcases hbeyond with ⟨_, hge⟩ | ⟨hneg, _⟩
      · exact absurd hlt (not_lt.mpr hge)
      · exact absurd htl (not_lt.mpr (le_of_lt hneg))
    have hn3 : ¬(st.target_linear < 0 ∧ -MIN_TURN_SPEED < st.linear_speed) := by
      rintro ⟨htl, hgt⟩
      rcases hbeyond with ⟨hpos, _⟩ | ⟨_, hle⟩
      · exact absurd htl (not_lt.mpr (le_of_lt hpos))
      · exact absurd hgt (not_lt.mpr hle)
    simp only [smooth_speed_update, pyabs_eq_abs]
    rw [if_pos hturn, if_neg (not_le.mpr hsmall), if_neg hn2, if_neg hn3]
  refine ⟨hlin, ?_⟩
  rw [hlin]
  exact smooth_toward_step_le (by norm_num [LINEAR_ACCEL])

/-- C7 witness: a turning step with a small positive target and the linear
speed beyond the minimum ramps down by one `LINEAR_ACCEL` step. -/
theorem ramp_while_turning_amended_witness :
    (smooth_speed_update (VState.mk (11/20) 0 (2/5) (1/5))).linear_speed =
      smooth_toward (11/20) (2/5) LINEAR_ACCEL ∧
    |(smooth_speed_update (VState.mk (11/20) 0 (2/5) (1/5))).linear_speed - 11/20| ≤
      LINEAR_ACCEL :=
  ramp_while_turning_amended (VState.mk (11/20) 0 (2/5) (1/5))
    (by rw [← pyabs_eq_abs]; norm_num [pyabs])
    (by rw [← pyabs_eq_abs]; norm_num [pyabs, MIN_TURN_SPEED])
    (Or.inl ⟨by norm_num, by norm_num [MIN_TURN_SPEED]⟩)

/-- C5: after the quit signal, starting from `linear = MAX_SPEED`,
`angular = 0`, the shutdown loop zeroes both targets, dispatches a strictly
decreasing sequence of `|linear|` values that reaches 0 at tick
`⌈MAX_SPEED / LINEAR_ACCEL⌉ = 25`, and then issues exactly one final
`(0, 0)` dispatch. -/
theorem shutdown_ramp_profile :
    (shutdown_step (VState.mk MAX_SPEED 0 MAX_SPEED 0)).target_linear = 0 ∧
    (shutdown_step (VState.mk MAX_SPEED 0 MAX_SPEED 0)).target_angular = 0 ∧
    shutdown_dispatches 30 (VState.mk MAX_SPEED 0 MAX_SPEED 0) =
      [(24/50, 0), (23/50, 0), (22/50, 0), (21/50, 0), (20/50, 0), (19/50, 0),
       (18/50, 0), (17/50, 0), (16/50, 0), (15/50, 0), (14/50, 0), (13/50, 0),
       (12/50, 0), (11/50, 0), (10/50, 0), (9/50, 0), (8/50, 0), (7/50, 0),
       (6/50, 0), (5/50, 0), (4/50, 0), (3/50, 0), (2/50, 0), (1/50, 0), (0, 0)] ∧
    (shutdown_dispatches 30 (VState.mk MAX_SPEED 0 MAX_SPEED 0)).length = 25 ∧
    List.Chain' (fun p q : ℚ × ℚ => |q.1| < |p.1|)
      (shutdown_dispatches 30 (VState.mk MAX_SPEED 0 MAX_SPEED 0)) ∧
    (shutdown_dispatches 30 (VState.mk MAX_SPEED 0 MAX_SPEED 0)).getLast? = some (0, 0) ∧
    shutdown_sequence 30 (VState.mk MAX_SPEED 0 MAX_SPEED 0) =
      shutdown_dispatches 30 (VState.mk MAX_SPEED 0 MAX_SPEED 0) ++ [(0, 0)] ∧
    ⌈MAX_SPEED / LINEAR_ACCEL⌉ = 25 := by
  have hlist : shutdown_dispatches 30 (VState.mk MAX_SPEED 0 MAX_SPEED 0) =
      [(24/50, 0), (23/50, 0), (22/50, 0), (21/50, 0), (20/50, 0), (19/50, 0),
       (18/50, 0), (17/50, 0), (16/50, 0), (15/50, 0), (14/50, 0), (13/50, 0),
       (12/50, 0), (11/50, 0), (10/50, 0), (9/50, 0), (8/50, 0), (7/50, 0),
       (6/50, 0), (5/50, 0), (4/50, 0), (3/50, 0), (2/50, 0), (1/50, 0), (0, 0)] := by
    norm_num [shutdown_dispatches, shutdown_step, smooth_speed_update, smooth_toward,
      pyabs, MAX_SPEED, MIN_TURN_SPEED, LINEAR_ACCEL, ANGULAR_ACCEL]
  refine ⟨rfl, rfl, hlist, ?_, ?_, ?_, rfl, ?_⟩
  · rw [hlist]
    rfl
  · rw [hlist]
    simp only [List.chain'_cons, List.chain'_singleton, and_true, ← pyabs_eq_abs]
    norm_num [pyabs]
  · rw [hlist]
    rfl
  · rw [show MAX_SPEED / LINEAR_ACCEL = ((25 : ℤ) : ℚ) by
      norm_num [MAX_SPEED, LINEAR_ACCEL]]
    exact Int.ceil_intCast 25

end RoverCtrl
